import Mathlib

/-!
Verification development for the whitelabel validator frontend
(`src/services/transactions.ts`, `src/utils/injective-signer.ts`,
`src/utils/format.ts`, `src/utils/address.ts`, and the
`ValidatorEditForm` component).

The TypeScript sources are shallowly embedded: JavaScript numbers are
modelled as exact rationals together with an explicit round-to-nearest
binary64 rounding function, JavaScript BigInt as `Nat`/`Int`, strings as
`String`/`List Char`, thrown exceptions as `Except String`, and absent
(`undefined`/falsy) values as `Option`.  All model functions are
computable so that concrete runs of the embedded code can be checked by
evaluation.
-/

set_option maxRecDepth 100000

namespace WhitelabelValidator

/-! ## JavaScript string primitives -/

/-- The list `l` starts with the list `p` (used to model JavaScript
substring search). -/
def listStartsWith : List Char → List Char → Bool
  | _, [] => true
  | [], _ :: _ => false
  | c :: cs, d :: ds => c == d && listStartsWith cs ds

/-- The list `sub` occurs contiguously inside `l`.  Models the JavaScript
`String.prototype.includes` search. -/
def listHasSubstring : List Char → List Char → Bool
  | l, sub =>
    match l with
    | [] => listStartsWith [] sub
    | _ :: t => listStartsWith l sub || listHasSubstring t sub

/-- JavaScript `a.includes(b)`. -/
def jsIncludes (s sub : String) : Bool :=
  listHasSubstring s.data sub.data

/-- ASCII lower-casing of a single character, as JavaScript
`String.prototype.toLowerCase` acts on ASCII input (the only input that
occurs in this code base: bech32 addresses). -/
def jsToLowerChar (c : Char) : Char :=
  if 'A' ≤ c && c ≤ 'Z' then Char.ofNat (c.toNat + 32) else c

/-- JavaScript `s.toLowerCase()` on ASCII strings. -/
def jsToLower (s : String) : String :=
  String.mk (s.data.map jsToLowerChar)

/-- JavaScript `s.substring(0, n)`. -/
def jsSubstringTo (s : String) (n : Nat) : String :=
  String.mk (s.data.take n)

/-- JavaScript whitespace test for the characters relevant to
`String.prototype.trim` on the inputs occurring here. -/
def isJsWhitespace (c : Char) : Bool :=
  c == ' ' || c == '\t' || c == '\n' || c == '\r'

/-- JavaScript `s.trim()`. -/
def jsTrim (l : List Char) : List Char :=
  ((l.dropWhile isJsWhitespace).reverse.dropWhile isJsWhitespace).reverse

/-- JavaScript `a || b` on strings: the empty string is falsy. -/
def jsOrElse (s fallback : String) : String :=
  if s = "" then fallback else s

/-! ## Decimal digit strings (JavaScript `Number`/`BigInt` `toString`) -/

/-- The decimal digit character for `d < 10`. -/
def decDigitChar (d : Nat) : Char := Char.ofNat (48 + d)

/-- Fuel-driven most-significant-first decimal digit expansion. -/
def natDigitsAux : Nat → Nat → List Char
  | 0, _ => []
  | fuel + 1, n =>
    if n < 10 then [decDigitChar n]
    else natDigitsAux fuel (n / 10) ++ [decDigitChar (n % 10)]

/-- Decimal digits of a natural number, most significant first. -/
def natDigits (n : Nat) : List Char := natDigitsAux (n + 1) n

/-- Decimal string of a natural number; the embedding of JavaScript
`BigInt.prototype.toString` (and of `Number.prototype.toString` on exact
small integers). -/
def natToDecimalString (n : Nat) : String := String.mk (natDigits n)

/-- The numeric value of a decimal digit character, `none` otherwise. -/
def digitVal? (c : Char) : Option Nat :=
  if '0' ≤ c && c ≤ '9' then some (c.toNat - 48) else none

/-- Accumulating parser for all-digit character lists. -/
def parseDigitsAux : Nat → List Char → Option Nat
  | acc, [] => some acc
  | acc, c :: cs =>
    match digitVal? c with
    | some d => parseDigitsAux (10 * acc + d) cs
    | none => none

/-- Parse an all-digit character list as a natural number.  Models
JavaScript `BigInt(str)` on sign-free input (note `BigInt("")` is `0n`,
matching `parseDigitsAux 0 [] = some 0`); a non-digit character makes
`BigInt` throw, modelled by `none`. -/
def parseDigits (l : List Char) : Option Nat := parseDigitsAux 0 l

/-- Left-pad a character list with `'0'` up to length `k`; models
JavaScript `String.prototype.padStart(k, '0')`. -/
def padStartZeros (k : Nat) (l : List Char) : List Char :=
  List.replicate (k - l.length) '0' ++ l

/-- Remove trailing `'0'` characters; models the JavaScript replacement
`replace(/0+$/, '')`. -/
def dropTrailingZeros (l : List Char) : List Char :=
  (l.reverse.dropWhile (· == '0')).reverse

/-- Test for the regular-expression character class `[1-9]`. -/
def isNonZeroDigit (c : Char) : Bool := '1' ≤ c && c ≤ '9'

/-- Test for the decimal digit characters `[0-9]`. -/
def isDigitChar (c : Char) : Bool := '0' ≤ c && c ≤ '9'

/-- Index of the first character matching `[1-9]`; models the JavaScript
`String.prototype.search(/[1-9]/)` (with `none` for the `-1` result). -/
def regexSearchNonZeroDigit : List Char → Option Nat
  | [] => none
  | c :: t =>
    if isNonZeroDigit c then some 0
    else (regexSearchNonZeroDigit t).map (· + 1)

/-! ## Exact model of IEEE-754 binary64 (JavaScript `number`) arithmetic

JavaScript numbers are binary64 floats.  A float value is modelled by the
exact rational it denotes; `roundDouble` is round-to-nearest, ties to
even, for the normal range (every value arising in this code base lies
far inside the normal range, so subnormals and overflow never occur and
are not modelled).

Rationals are represented by a bare numerator/denominator structure
`Rq` with explicit operations, so that all computation reduces to `Int`
and `Nat` arithmetic.  Every operation below keeps the denominator
positive; normalisation is unnecessary because values are compared by
cross-multiplication. -/

/-- An exact (unreduced) rational: `num / den` with `0 < den` maintained
by all operations used here. -/
structure Rq where
  num : Int
  den : Nat

/-- The rational for a natural number. -/
def Rq.ofNat (n : Nat) : Rq := ⟨n, 1⟩

/-- Exact rational product. -/
def Rq.mul (a b : Rq) : Rq := ⟨a.num * b.num, a.den * b.den⟩

/-- Exact rational sum. -/
def Rq.add (a b : Rq) : Rq :=
  ⟨a.num * b.den + b.num * a.den, a.den * b.den⟩

/-- Exact rational quotient; the divisors occurring in this development
are all positive. -/
def Rq.div (a b : Rq) : Rq := ⟨a.num * b.den, a.den * b.num.toNat⟩

/-- Comparison by cross-multiplication (valid for positive
denominators). -/
def Rq.le (a b : Rq) : Bool := a.num * b.den ≤ b.num * a.den

/-- Strict comparison by cross-multiplication. -/
def Rq.lt (a b : Rq) : Bool := a.num * b.den < b.num * a.den

/-- Value equality by cross-multiplication. -/
def Rq.beq (a b : Rq) : Bool := a.num * b.den == b.num * a.den

/-- Floor of a nonnegative rational as a natural number. -/
def Rq.floorNat (a : Rq) : Nat := a.num.toNat / a.den

/-- Fuel-driven `⌊log₂⌋` on naturals (`0` for `n < 2`). -/
def natLog2Aux : Nat → Nat → Nat
  | 0, _ => 0
  | fuel + 1, n => if n < 2 then 0 else natLog2Aux fuel (n / 2) + 1

/-- `⌊log₂ n⌋` for `1 ≤ n`. -/
def natLog2 (n : Nat) : Nat := natLog2Aux (n + 1) n

/-- The rational `2 ^ e` for an integer exponent. -/
def twoPowQ : Int → Rq
  | Int.ofNat n => ⟨(2 ^ n : Nat), 1⟩
  | Int.negSucc n => ⟨1, 2 ^ (n + 1)⟩

/-- `⌊log₂ q⌋` for a positive rational, computed from the bit lengths of
the numerator and denominator. -/
def ratFloorLog2 (q : Rq) : Int :=
  let g : Int := (natLog2 q.num.toNat : Int) - (natLog2 q.den : Int)
  if (twoPowQ g).le q then g else g - 1

/-- Round a nonnegative rational to the nearest natural number, ties to
even (IEEE-754 `roundTiesToEven` on the scaled significand): with
`f = ⌊q⌋` and fractional remainder `rem / den`, compare `2 * rem` with
`den` instead of the remainder with `1/2`. -/
def roundHalfEvenNat (q : Rq) : Nat :=
  let f := q.floorNat
  let rem2 := 2 * (q.num.toNat % q.den)
  if rem2 < q.den then f
  else if q.den < rem2 then f + 1
  else if f % 2 = 0 then f else f + 1

/-- Round a nonnegative exact rational to the nearest binary64 value
(ties to even), returning the exact rational denoted by that binary64
value.  Every arithmetic result in the embedded JavaScript code is
nonnegative, so only the nonnegative normal range is modelled. -/
def roundDouble (q : Rq) : Rq :=
  if q.num ≤ 0 then ⟨0, 1⟩
  else
    let e := ratFloorLog2 q
    Rq.mul (Rq.ofNat (roundHalfEvenNat (q.mul (twoPowQ (52 - e))))) (twoPowQ (e - 52))

/-- JavaScript `x * y` (binary64 multiplication: exact product, then one
rounding). -/
def jsMul (x y : Rq) : Rq := roundDouble (x.mul y)

/-- JavaScript `x / y` (binary64 division: exact quotient, then one
rounding). -/
def jsDiv (x y : Rq) : Rq := roundDouble (x.div y)

/-- JavaScript `Math.floor(x)` for nonnegative `x`.  The floor of any
binary64 value is itself exactly representable, so no rounding step is
needed. -/
def jsFloor (x : Rq) : Rq := Rq.ofNat x.floorNat

/-- Exact rational value of a sign-free decimal literal
(`digits` or `digits.digits`), `none` when the string is not of that
shape.  The validated form inputs reaching `parseFloat` in this code
base are exactly such literals. -/
def parseDecimalQ (s : String) : Option Rq :=
  let l := s.data
  let whole := l.takeWhile (fun c => c ≠ '.')
  let rest := l.drop whole.length
  match rest with
  | [] =>
    match whole with
    | [] => none
    | _ => (parseDigits whole).map Rq.ofNat
  | _ :: fracPart =>
    if fracPart.any (fun c => c = '.') then none
    else
      match parseDigits whole, parseDigits fracPart with
      | some w, some f =>
        some ((Rq.ofNat w).add ((Rq.ofNat f).div (Rq.ofNat (10 ^ fracPart.length))))
      | _, _ => none

/-- JavaScript `parseFloat` on the decimal literals occurring here: the
exact decimal value rounded to the nearest binary64.  `none` models the
`NaN` result. -/
def jsParseFloat (s : String) : Option Rq :=
  (parseDecimalQ s).map roundDouble

/-- JavaScript `x.toFixed(f)` for nonnegative `x` below `10 ^ 21`:
choose the integer `n` minimising `|n / 10 ^ f - x|`, preferring the
larger `n` on a tie (ECMA-262 `Number.prototype.toFixed`), i.e.
`n = ⌊x * 10 ^ f + 1/2⌋`, and render `n` with a decimal point inserted
before the last `f` digits. -/
def jsToFixed (x : Rq) (f : Nat) : String :=
  let n := ((x.mul (Rq.ofNat (10 ^ f))).add ⟨1, 2⟩).floorNat
  let padded := padStartZeros (f + 1) (natDigits n)
  let k := padded.length - f
  if f = 0 then String.mk padded
  else String.mk (padded.take k ++ '.' :: padded.drop k)

/-- Shortest-round-trip candidate at `k` significant digits: the two
multiples of `10 ^ (len - k)` adjacent to `N`, filtered to those that
round (as binary64) back to the value `N`, preferring the closer one and
an even leading-digit block on a tie (ECMA-262 `Number::toString`). -/
def jsShortestAt (N len k : Nat) : Option Nat :=
  let p := 10 ^ (len - k)
  let down := N / p * p
  let up := down + p
  let okDown := (roundDouble (Rq.ofNat down)).beq (Rq.ofNat N)
  let okUp := (roundDouble (Rq.ofNat up)).beq (Rq.ofNat N)
  if okDown && okUp then
    if N - down < up - N then some down
    else if up - N < N - down then some up
    else if (down / p) % 2 = 0 then some down else some up
  else if okDown then some down
  else if okUp then some up
  else none

/-- JavaScript `Number.prototype.toString` on a nonnegative integral
binary64 value below `10 ^ 21`: the decimal numeral with the fewest
significant digits that parses back to the same binary64 value
(ECMA-262 `Number::toString`).  The argument is the exact rational
denoted by the binary64 value. -/
def jsNumToString (x : Rq) : String :=
  let N := x.floorNat
  let len := (natDigits N).length
  match (List.range len).findSome? (fun i => jsShortestAt N len (i + 1)) with
  | some c => natToDecimalString c
  | none => natToDecimalString N

/-! ## `src/services/transactions.ts` — broadcast options and RPC error
handling -/

/-- Broadcast options passed with every `signAndBroadcast` call of the
current module (`transactions.ts` line 12):
`const broadcastOptions = \x7b mode: 'commit' as const \x7d`. -/
structure BroadcastOptions where
  mode : String

/-- `transactions.ts` line 12. -/
def broadcastOptions : BroadcastOptions := ⟨"commit"⟩

/-- The broadcast mode passed by the legacy `createValidatorTransaction`
variant (`transactions.ts` lines 1176–1178): `mode: 'async'`. -/
def legacyCreateValidatorBroadcastMode : String := "async"

/-- Modelled from the spec: of the three Tendermint broadcast modes,
`sync` returns as soon as the node's mempool check (CheckTx) completes,
`async` returns as soon as the transaction is sent, and `commit` waits
for full block inclusion at the call site.  The mode semantics live in
the `@interchainjs` library, outside this repository. -/
def returnsAtMempoolCheck (mode : String) : Bool := mode == "sync"

/-- `transactions.ts` line 13. -/
def rpcErrorIndicators : List String := ["RPC Error", "Internal error"]

/-- `transactions.ts` lines 16–18. -/
def isRpcErrorMessage (message : String) : Bool :=
  rpcErrorIndicators.any (fun indicator => jsIncludes message indicator)

/-- Fields read from `JSON.parse(error.response.data)`; `none` models an
absent or falsy field. -/
structure ParsedResponseData where
  message : Option String
  error : Option String
  code : Option String

/-- The fields of a caught JavaScript error object that
`extractRpcErrorDetails` and `logRpcError` inspect.  `none` models an
absent or falsy field; `responseData` is the already-JSON-parsed
`error.response.data` (`none` when absent or not parseable, in which
case the fallback message is kept). -/
structure RpcErrorInfo where
  message : String
  code : Option String
  responseData : Option ParsedResponseData
  dataMessage : Option String
  dataTxHash : Option String
  causeMessage : Option String
  txHash : Option String
  transactionHash : Option String

/-- An error object carrying only a message, as produced by
`throw new Error(msg)` in this module. -/
def plainError (msg : String) : RpcErrorInfo :=
  ⟨msg, none, none, none, none, none, none, none⟩

/-- True for characters of the regular-expression class `[a-fA-F0-9]`. -/
def isHexDigit (c : Char) : Bool :=
  ('0' ≤ c && c ≤ '9') || ('a' ≤ c && c ≤ 'f') || ('A' ≤ c && c ≤ 'F')

/-- Match the regular expression `0x[a-fA-F0-9]\x7b64\x7d` at the head of the
list. -/
def matchTxHashAt : List Char → Option (List Char)
  | '0' :: 'x' :: rest =>
    let h := rest.take 64
    if h.length = 64 && h.all isHexDigit then some ('0' :: 'x' :: h) else none
  | _ => none

/-- Leftmost match of `0x[a-fA-F0-9]\x7b64\x7d`; models
`rawMessage.match(/0x[a-fA-F0-9]\x7b64\x7d/)?.[0]`. -/
def regexFindTxHash : List Char → Option String
  | [] => none
  | c :: t =>
    match matchTxHashAt (c :: t) with
    | some h => some (String.mk h)
    | none => regexFindTxHash t

/-- Result record of `extractRpcErrorDetails`. -/
structure RpcErrorDetails where
  detailedError : String
  code : Option String
  txHash : Option String

/-- `transactions.ts` lines 20–56. -/
def extractRpcErrorDetails (error : RpcErrorInfo) (fallbackMessage rawMessage : String) :
    RpcErrorDetails :=
  let detailedError := fallbackMessage
  let code := error.code
  let detailedError :=
    match error.responseData with
    | some parsed => (parsed.message).getD ((parsed.error).getD detailedError)
    | none => detailedError
  let code :=
    match error.responseData with
    | some parsed =>
      match parsed.code, code with
      | some parsedCode, none => some parsedCode
      | _, _ => code
    | none => code
  let detailedError :=
    match error.dataMessage with
    | some m => m
    | none => detailedError
  let detailedError :=
    match error.causeMessage with
    | some m => m
    | none => detailedError
  let txHash :=
    match regexFindTxHash rawMessage.data with
    | some h => some h
    | none => error.txHash <|> error.transactionHash <|> error.dataTxHash
  ⟨detailedError, code, txHash⟩

/-- `transactions.ts` lines 71–90. -/
def buildRpcErrorMessage (error : RpcErrorInfo) (errorMsg : String) : String :=
  let details := extractRpcErrorDetails error errorMsg errorMsg
  match details.txHash with
  | some txHash =>
    "Transaction signed and broadcast, but RPC returned an error. " ++
    "Transaction hash: " ++ txHash ++ ". " ++
    "Please check your wallet or explorer to confirm the transaction status. " ++
    "Error: " ++ details.detailedError
  | none =>
    "RPC endpoint error during broadcast. " ++
    "The transaction may have been signed successfully. " ++
    "Please check your wallet transaction history or try again. " ++
    "Error: " ++ details.detailedError ++ " " ++
    "(Code: " ++ (details.code).getD "unknown" ++ ")"

/-- The hash the spec calls "recoverable from the error object": a
`0x`-prefixed 64-hex-digit substring of the message, or a `txHash`,
`transactionHash` or `data.txHash` field. -/
def recoverableTxHash (error : RpcErrorInfo) : Option String :=
  match regexFindTxHash error.message.data with
  | some h => some h
  | none => error.txHash <|> error.transactionHash <|> error.dataTxHash

/-- The catch-block error classifier of `registerOrchestratorTransaction`
(`transactions.ts` lines 614–634): the message of the error the function
rethrows, given the caught error. -/
def registerOrchestratorErrorRemap (error : RpcErrorInfo) : String :=
  let errorMsg := error.message
  if jsIncludes errorMsg "Request rejected" || jsIncludes errorMsg "User rejected" then
    "Transaction was rejected. Please approve the transaction in your wallet."
  else if jsIncludes errorMsg "insufficient funds" then
    "Insufficient balance. Please ensure you have enough INJ for transaction fees."
  else if jsIncludes errorMsg "orchestrator address already set" then
    "Orchestrator address has already been registered and cannot be changed."
  else if jsIncludes errorMsg "unauthorized" then
    "You are not authorized to register orchestrator for this validator."
  else if isRpcErrorMessage errorMsg then
    buildRpcErrorMessage error errorMsg
  else errorMsg

/-! ## `src/services/transactions.ts` — gas estimation -/

/-- `Math.floor(GAS_MULTIPLIER * 100)` with `GAS_MULTIPLIER = 1.5`;
`1.5 * 100` is exactly `150` in binary64. -/
def gasMultiplierTimes100 : Nat := 150

/-- `estimateGas` (`transactions.ts` lines 96–140).  The simulation
outcome is abstracted as `Except.error` for any thrown failure,
`Except.ok none` for a response without `gasInfo`/`gasUsed` (which
throws inside the `try` and is caught by the same handler), and
`Except.ok (some gasUsed)` for a successful simulation.  On success the
estimate is `(BigInt(gasUsed) * BigInt(150)) / BigInt(100)` rendered as
a string; any failure yields the fixed fallback `'500000'`. -/
def estimateGas (simulation : Except String (Option Nat)) : String :=
  match simulation with
  | Except.error _ => "500000"
  | Except.ok none => "500000"
  | Except.ok (some gasUsed) =>
    natToDecimalString (gasUsed * gasMultiplierTimes100 / 100)

/-! ## `src/services/transactions.ts` — numeric conversions -/

/-- The commission percentage-to-decimal conversion
`(parseFloat(p) / 100).toFixed(18)` (`transactions.ts` line 196 and
identically lines 197, 198, 334–336, 652).  `parseFloat` yielding `NaN`
makes `toFixed` produce the string `"NaN"`. -/
def percentToDecimalRate (p : String) : String :=
  match jsParseFloat p with
  | none => "NaN"
  | some x => jsToFixed (jsDiv x (Rq.ofNat 100)) 18

/-- The amount validation and base-unit conversion shared verbatim by
`delegateTransaction` (`transactions.ts` lines 753–760) and
`undelegateTransaction` (lines 854–861):
`parseFloat(data.amount)`, reject `NaN` and nonpositive values, then
`Math.floor(amount * 1e18).toString()`.  The literal `1e18` is exactly
`10 ^ 18` in binary64. -/
def delegateBaseAmount (amount : String) : Except String String :=
  match jsParseFloat amount with
  | none => Except.error "Delegation amount must be a positive number"
  | some a =>
    if a.num ≤ 0 then Except.error "Delegation amount must be a positive number"
    else Except.ok (jsNumToString (jsFloor (jsMul a (Rq.ofNat (10 ^ 18)))))

/-! ## Edit-validator commission handling -/

/-- The default value shown in the edit form's commission field
(`ValidatorEditForm`, `src/unnamed/part_004` lines 14–16):
`(parseFloat(validator.commission.rate) * 100).toFixed(2)` when the
on-chain rate string is truthy, `'0'` otherwise. -/
def commissionDefaultDisplay (rate : String) : String :=
  if rate = "" then "0"
  else
    match jsParseFloat rate with
    | none => "NaN"
    | some x => jsToFixed (jsMul x (Rq.ofNat 100)) 2

/-- `ValidatorEditForm.handleFormSubmit` (`src/unnamed/part_004` lines
37–44): the submitted commission rate is the form value when the field
is dirty and `undefined` otherwise.  react-hook-form (outside this
repository) marks a field dirty exactly when its current value differs
from its default value. -/
def handleFormSubmitCommission (defaultValue input : String) : Option String :=
  if input ≠ defaultValue then some input else none

/-- The commission-rate handling of `editValidatorTransaction`
(`transactions.ts` lines 646–653, 665): validate the optional
percentage and convert it with `(ratePercent / 100).toFixed(18)`; the
built `MsgEditValidator` carries the result in its `commissionRate`
field (`none` = field left `undefined`). -/
def editValidatorCommissionRate (commissionRate : Option String) :
    Except String (Option String) :=
  match commissionRate with
  | none => Except.ok none
  | some r =>
    match jsParseFloat r with
    | none => Except.error "Commission rate must be between 0 and 100%"
    | some ratePercent =>
      if ratePercent.lt (Rq.ofNat 0) || (Rq.ofNat 100).lt ratePercent then
        Except.error "Commission rate must be between 0 and 100%"
      else Except.ok (some (jsToFixed (jsDiv ratePercent (Rq.ofNat 100)) 18))

/-- End-to-end commission field of the built `MsgEditValidator` for an
edit-validator submission: current on-chain rate string and form input
string to the `commissionRate` field of the message. -/
def editValidatorMessageCommission (currentRate input : String) :
    Except String (Option String) :=
  editValidatorCommissionRate
    (handleFormSubmitCommission (commissionDefaultDisplay currentRate) input)

/-! ## `src/utils/format.ts` — `formatTokenAmount` -/

/-- `formatTokenAmount` (`format.ts` lines 8–59).  The amount string is
parsed with `BigInt` after trimming and truncating at the first `'.'`;
`none` models the `BigInt` throw on non-digit input.  The divisor
`BigInt(10 ** decimals)` equals `10 ^ decimals` exactly because
`10 ** decimals` is an exact binary64 value for every `decimals ≤ 22`
(all scales used by this code base; the theorems below use scale 18).
When the sliced fractional display is empty (only possible for
`displayDecimals = 0`), the JavaScript expression
`displayFractional[0]` is `undefined` and the template literal renders
the word `undefined`; the model mirrors this. -/
def formatTokenAmount (amount : String) (decimals displayDecimals : Nat) :
    Option String :=
  if amount = "" || amount = "0" then some "0"
  else
    let trimmed := jsTrim amount.data
    let amountStr := trimmed.takeWhile (fun c => c ≠ '.')
    match parseDigits amountStr with
    | none => none
    | some amountValue =>
      let divisor := 10 ^ decimals
      let integerPart := amountValue / divisor
      let fractionalPart := amountValue % divisor
      if fractionalPart = 0 then some (natToDecimalString integerPart)
      else
        let fractionalStr := padStartZeros decimals (natDigits fractionalPart)
        match regexSearchNonZeroDigit fractionalStr with
        | none => some (natToDecimalString integerPart)
        | some firstNonZeroIndex =>
          let endIndex := min (firstNonZeroIndex + displayDecimals) decimals
          let displayFractional :=
            (fractionalStr.drop firstNonZeroIndex).take (endIndex - firstNonZeroIndex)
          let replaced := dropTrailingZeros displayFractional
          let trimmedFractional : Option (List Char) :=
            if replaced.isEmpty then displayFractional.head?.map (fun c => [c])
            else some replaced
          match trimmedFractional with
          | none =>
            some (natToDecimalString integerPart ++ "." ++ "undefined")
          | some l =>
            if l = [] then some (natToDecimalString integerPart)
            else some (natToDecimalString integerPart ++ "." ++ String.mk l)

/-! ## `src/services/transactions.ts` — broadcast/finality
reconciliation (`delegateTransaction`) -/

/-- The `txResult` member of a commit-mode broadcast response.  `log`
and `codespace` are plain strings with `""` for the falsy absent
value. -/
structure TxResult where
  code : Int
  log : String
  codespace : String

/-- A finalized transaction response returned by `result.wait`. -/
structure TxResponse where
  code : Int
  rawLog : String

/-- Error text thrown when the broadcast-stage `txResult` carries a
nonzero code (`transactions.ts` lines 794–797). -/
def broadcastFailureLog (t : TxResult) : String :=
  jsOrElse t.log
    ("Transaction failed with code " ++ toString t.code ++
     " (codespace: " ++ jsOrElse t.codespace "unknown" ++ ")")

/-- Error text used when `wait` fails but the broadcast `txResult`
already carried a nonzero code (`transactions.ts` lines 806–811). -/
def waitFallbackLog (t : TxResult) : String :=
  jsOrElse t.log ("Transaction failed with code " ++ toString t.code)

/-- Error text thrown when the finalized response carries a nonzero
code (`transactions.ts` lines 817–819). -/
def finalizedFailureLog (r : TxResponse) : String :=
  jsOrElse r.rawLog ("Transaction failed with code " ++ toString r.code)

/-- The wait-and-check tail of `delegateTransaction`
(`transactions.ts` lines 800–826): poll for finalization, fall back to
the broadcast `txResult` when polling fails, and accept only a
finalized code of `0`. -/
def delegateReconcileWait (broadcastTxResult : Option TxResult)
    (wait : Except String TxResponse) : Except String TxResponse :=
  match wait with
  | Except.error waitError =>
    match broadcastTxResult with
    | some t =>
      if t.code ≠ 0 then Except.error (waitFallbackLog t)
      else Except.error waitError
    | none => Except.error waitError
  | Except.ok txResponse =>
    if txResponse.code ≠ 0 then Except.error (finalizedFailureLog txResponse)
    else Except.ok txResponse

/-- The post-broadcast reconciliation of `delegateTransaction`
(`transactions.ts` lines 790–826): inspect the commit-mode broadcast
`txResult` first, then wait for finalization.  `broadcastTxResult` is
`none` when the broadcast response has no `txResult` member. -/
def delegateReconcile (broadcastTxResult : Option TxResult)
    (wait : Except String TxResponse) : Except String TxResponse :=
  match broadcastTxResult with
  | some t =>
    if t.code ≠ 0 then Except.error (broadcastFailureLog t)
    else delegateReconcileWait broadcastTxResult wait
  | none => delegateReconcileWait none wait

/-- The catch-block error classifier of `delegateTransaction`
(`transactions.ts` lines 827–845): the message of the error the
function rethrows.  Errors thrown inside the function body are plain
`Error` objects carrying only a message. -/
def delegateErrorRemap (errorMsg : String) : String :=
  if jsIncludes errorMsg "Request rejected" || jsIncludes errorMsg "User rejected" then
    "Transaction was rejected. Please approve the transaction in your wallet."
  else if jsIncludes errorMsg "insufficient funds" then
    "Insufficient balance. Please ensure you have enough INJ for delegation and transaction fees."
  else if jsIncludes errorMsg "validator not found" then
    "Validator not found. Please verify the validator address is correct."
  else if isRpcErrorMessage errorMsg then
    buildRpcErrorMessage (plainError errorMsg) errorMsg
  else errorMsg

/-- Outcome of `delegateTransaction` after broadcast, as seen by the
caller: the finalized response on success, or the rethrown error
message. -/
def delegateOutcome (broadcastTxResult : Option TxResult)
    (wait : Except String TxResponse) : Except String TxResponse :=
  match delegateReconcile broadcastTxResult wait with
  | Except.ok r => Except.ok r
  | Except.error e => Except.error (delegateErrorRemap e)

/-- The error-classifier patterns `delegateTransaction` checks before
the RPC-ambiguity branch. -/
def delegatePreRpcPattern (s : String) : Bool :=
  jsIncludes s "Request rejected" || jsIncludes s "User rejected" ||
  jsIncludes s "insufficient funds" || jsIncludes s "validator not found"

/-! ## `src/utils/injective-signer.ts` — the encoder registry -/

/-- A registered encoder, abstracted to its registration key and the
message field names its `encode` function reads, in field-number
order. -/
structure EncoderSpec where
  typeUrl : String
  fields : List String

/-- The six encoders `createInjectiveSigner` registers
(`injective-signer.ts` lines 60–294, installed by `addEncoders` at line
296). -/
def stakingEncoders : List EncoderSpec :=
  [⟨"/cosmos.staking.v1beta1.MsgCreateValidator",
    ["description", "commission", "minSelfDelegation", "delegatorAddress",
     "validatorAddress", "pubkey", "value"]⟩,
   ⟨"/cosmos.staking.v1beta1.MsgEditValidator",
    ["description", "validatorAddress", "commissionRate", "minSelfDelegation"]⟩,
   ⟨"/cosmos.staking.v1beta1.MsgDelegate",
    ["delegatorAddress", "validatorAddress", "amount"]⟩,
   ⟨"/cosmos.staking.v1beta1.MsgUndelegate",
    ["delegatorAddress", "validatorAddress", "amount"]⟩,
   ⟨"/injective.peggy.v1.MsgSetOrchestratorAddresses",
    ["sender", "orchestrator", "ethAddress"]⟩,
   ⟨"/cosmos.slashing.v1beta1.MsgUnjail",
    ["validatorAddr"]⟩]

/-- Type identifier of the message built by `createValidatorMessage` /
`createValidatorTransaction` (`transactions.ts` lines 203, 343). -/
def createValidatorMsgTypeUrl : String := "/cosmos.staking.v1beta1.MsgCreateValidator"

/-- Type identifier of the message built by `editValidatorTransaction`
(`transactions.ts` line 656). -/
def editValidatorMsgTypeUrl : String := "/cosmos.staking.v1beta1.MsgEditValidator"

/-- Type identifier of the message built by `delegateTransaction`
(`transactions.ts` line 763). -/
def delegateMsgTypeUrl : String := "/cosmos.staking.v1beta1.MsgDelegate"

/-- Type identifier of the message built by `undelegateTransaction`
(`transactions.ts` line 864). -/
def undelegateMsgTypeUrl : String := "/cosmos.staking.v1beta1.MsgUndelegate"

/-- Type identifier of the message built by `unjailTransaction`
(`src/unnamed/part_014` line 1192). -/
def unjailMsgTypeUrl : String := "/cosmos.slashing.v1beta1.MsgUnjail"

/-- Type identifier of the message built by `createOrchestratorMessage`
and `registerOrchestratorTransaction` (`transactions.ts` lines 247,
553). -/
def orchestratorMsgTypeUrl : String := "/injective.peggy.v1.MsgSetOrchestratorAddress"

/-- The field names `createOrchestratorMessage` and
`registerOrchestratorTransaction` set on the orchestrator message value
(`transactions.ts` lines 248–252, 554–558). -/
def orchestratorMsgFieldNames : List String := ["validator", "orchestrator", "ethereum"]

/-! ## `createOrchestratorMessage` (`transactions.ts` lines 236–261) -/

/-- The orchestrator message value built by
`createOrchestratorMessage`. -/
structure OrchestratorMsg where
  typeUrl : String
  validator : String
  orchestrator : String
  ethereum : String

/-- A fee coin. -/
structure FeeCoin where
  denom : String
  amount : String

/-- A `StdFee`. -/
structure StdFeeModel where
  amount : List FeeCoin
  gas : String

/-- The bech32 data character set, used by the address data parts of
`inj...` account addresses.  It contains no `'1'`, `'b'`, `'i'` or
`'o'`. -/
def bech32Charset : List Char :=
  ['q', 'p', 'z', 'r', 'y', '9', 'x', '8', 'g', 'f', '2', 't', 'v', 'd', 'w',
   '0', 's', '3', 'j', 'n', '5', '4', 'k', 'h', 'c', 'e', '6', 'm', 'u', 'a',
   '7', 'l']

/-- The first ten characters of every `injvaloper...` validator operator
address, i.e. the value of
`data.validatorAddress.toLowerCase().substring(0, 10)` in
`createOrchestratorMessage`. -/
def injvaloperChars : List Char :=
  ['i', 'n', 'j', 'v', 'a', 'l', 'o', 'p', 'e', 'r']

/-- `createOrchestratorMessage` (`transactions.ts` lines 236–261):
throw unless the lowercased account address contains the first ten
characters of the lowercased validator address, else return the message
and the fixed fee. -/
def createOrchestratorMessage (address validatorAddress orchestratorAddress
    ethereumAddress : String) : Except String (OrchestratorMsg × StdFeeModel) :=
  if !jsIncludes (jsToLower address) (jsSubstringTo (jsToLower validatorAddress) 10) then
    Except.error "The connected wallet must be the validator operator address"
  else
    Except.ok
      (⟨orchestratorMsgTypeUrl, validatorAddress, orchestratorAddress, ethereumAddress⟩,
       ⟨[⟨"inj", "500000000000000000"⟩], "200000"⟩)

/-! ## Helper lemmas: substring search -/

theorem listStartsWith_nil (sub : List Char) :
    listStartsWith [] sub = sub.isEmpty := by
  cases sub <;> rfl

theorem listHasSubstring_cons (c : Char) (t sub : List Char) :
    listHasSubstring (c :: t) sub =
      (listStartsWith (c :: t) sub || listHasSubstring t sub) := by
  rfl

theorem listHasSubstring_nil_sub (l : List Char) :
    listHasSubstring l [] = true := by
  cases l <;> rfl

theorem listStartsWith_append_self (s y : List Char) :
    listStartsWith (s ++ y) s = true := by
  induction s with
  | nil => cases y <;> rfl
  | cons c cs ih => simp [listStartsWith, ih]

theorem listHasSubstring_of_middle (x s y : List Char) :
    listHasSubstring (x ++ s ++ y) s = true := by
  induction x with
  | nil =>
    simp only [List.nil_append]
    cases hsy : s ++ y with
    | nil =>
      rcases List.append_eq_nil.mp hsy with ⟨hs, hy⟩
      subst hs
      subst hy
      rfl
    | cons c t =>
      rw [← hsy, listHasSubstring.eq_def]
      rw [hsy]
      simp only
      rw [← hsy]
      simp [listStartsWith_append_self]
  | cons c cs ih =>
    simp only [List.cons_append]
    rw [listHasSubstring_cons, Bool.or_eq_true_iff]
    right
    exact ih

theorem listHasSubstring_self (l : List Char) :
    listHasSubstring l l = true := by
  have h := listHasSubstring_of_middle [] l []
  simpa using h

theorem listHasSubstring_suffix (x s : List Char) :
    listHasSubstring (x ++ s) s = true := by
  have h := listHasSubstring_of_middle x s []
  simpa using h

theorem listStartsWith_mono (sub x y : List Char)
    (h : listStartsWith x sub = true) :
    listStartsWith (x ++ y) sub = true := by
  induction sub generalizing x with
  | nil => cases x ++ y <;> rfl
  | cons d ds ih =>
    cases x with
    | nil => simp [listStartsWith] at h
    | cons c cs =>
      simp only [listStartsWith, Bool.and_eq_true] at h
      simp [listStartsWith, h.1, ih cs h.2]

theorem listHasSubstring_mono (sub x y : List Char)
    (h : listHasSubstring x sub = true) :
    listHasSubstring (x ++ y) sub = true := by
  induction x with
  | nil =>
    have hsub : sub = [] := by
      cases sub with
      | nil => rfl
      | cons d ds => simp [listHasSubstring, listStartsWith] at h
    subst hsub
    exact listHasSubstring_nil_sub y
  | cons c cs ih =>
    rw [listHasSubstring_cons] at h
    rcases Bool.or_eq_true_iff.mp h with h' | h'
    · simp only [List.cons_append]
      rw [listHasSubstring_cons, Bool.or_eq_true_iff]
      left
      have hmono := listStartsWith_mono sub (c :: cs) y h'
      simpa using hmono
    · simp only [List.cons_append]
      rw [listHasSubstring_cons, Bool.or_eq_true_iff]
      right
      exact ih h'

theorem jsIncludes_append_right (s t sub : String)
    (h : jsIncludes s sub = true) :
    jsIncludes (s ++ t) sub = true := by
  unfold jsIncludes at h ⊢
  rw [String.data_append]
  exact listHasSubstring_mono sub.data s.data t.data h

theorem jsIncludes_suffix (x s : String) :
    jsIncludes (x ++ s) s = true := by
  unfold jsIncludes
  rw [String.data_append]
  exact listHasSubstring_suffix x.data s.data

theorem jsIncludes_refl (s : String) :
    jsIncludes s s = true := by
  unfold jsIncludes
  exact listHasSubstring_self s.data

theorem jsIncludes_empty_sub (s : String) :
    jsIncludes s "" = true := by
  unfold jsIncludes
  exact listHasSubstring_nil_sub s.data

/-! ## Helper lemmas: decimal digit strings -/

theorem natDigitsAux_fuel : ∀ (f g n : Nat), n < f → n < g →
    natDigitsAux f n = natDigitsAux g n := by
  intro f
  induction f with
  | zero => intro g n hf; omega
  | succ f ih =>
    intro g n hf hg
    cases g with
    | zero => omega
    | succ g =>
      by_cases h : n < 10
      · simp [natDigitsAux, h]
      · have hn : 10 ≤ n := by omega
        have hd : n / 10 < n := Nat.div_lt_self (by omega) (by omega)
        simp only [natDigitsAux, h, if_false]
        rw [ih g (n / 10) (by omega) (by omega)]

theorem natDigits_eq (n : Nat) :
    natDigits n = if n < 10 then [decDigitChar n]
      else natDigits (n / 10) ++ [decDigitChar (n % 10)] := by
  by_cases h : n < 10
  · simp [natDigits, natDigitsAux, h]
  · rw [if_neg h]
    show natDigitsAux (n + 1) n = _
    rw [show natDigitsAux (n + 1) n =
      if n < 10 then [decDigitChar n]
      else natDigitsAux n (n / 10) ++ [decDigitChar (n % 10)] from rfl]
    rw [if_neg h]
    congr 1
    exact natDigitsAux_fuel n (n / 10 + 1) (n / 10)
      (Nat.div_lt_self (by omega) (by omega)) (by omega)

theorem natDigits_ne_nil (n : Nat) : natDigits n ≠ [] := by
  rw [natDigits_eq]
  by_cases h : n < 10 <;> simp [h]

theorem natDigits_length_pos (n : Nat) : 1 ≤ (natDigits n).length := by
  have h := natDigits_ne_nil n
  cases hne : natDigits n with
  | nil => exact absurd hne h
  | cons c t => simp [hne]

theorem natDigits_length_le (k : Nat) : ∀ n : Nat, 1 ≤ k → n < 10 ^ k →
    (natDigits n).length ≤ k := by
  induction k with
  | zero => intro n h; omega
  | succ k ih =>
    intro n _ hn
    rw [natDigits_eq]
    by_cases h : n < 10
    · rw [if_pos h]
      simp only [List.length_cons, List.length_nil]
      omega
    · have hk : 1 ≤ k := by
        rcases Nat.eq_zero_or_pos k with hk0 | hk0
        · subst hk0
          norm_num at hn
          omega
        · exact hk0
      have hdiv : n / 10 < 10 ^ k := by
        rw [Nat.div_lt_iff_lt_mul (by omega)]
        calc n < 10 ^ (k + 1) := hn
        _ = 10 ^ k * 10 := by rw [Nat.pow_succ]
      simp only [h, if_false, List.length_append, List.length_cons,
        List.length_nil]
      have := ih (n / 10) hk hdiv
      omega

theorem decDigitChar_isNonZero (d : Nat) (hd : d < 10) :
    isNonZeroDigit (decDigitChar d) = decide (d ≠ 0) := by
  interval_cases d <;> decide

theorem decDigitChar_isDigit (d : Nat) (hd : d < 10) :
    isDigitChar (decDigitChar d) = true := by
  interval_cases d <;> decide

theorem digitVal_decDigitChar (d : Nat) (hd : d < 10) :
    digitVal? (decDigitChar d) = some d := by
  interval_cases d <;> decide

theorem natDigits_all_digits : ∀ n : Nat, ∀ c ∈ natDigits n,
    isDigitChar c = true := by
  intro n
  induction n using Nat.strong_induction_on with
  | _ n ih =>
    intro c hc
    rw [natDigits_eq] at hc
    by_cases h : n < 10
    · simp [h] at hc
      subst hc
      exact decDigitChar_isDigit n h
    · simp only [h, if_false, List.mem_append, List.mem_cons,
        List.not_mem_nil, or_false] at hc
      rcases hc with hc | hc
      · exact ih (n / 10) (Nat.div_lt_self (by omega) (by omega)) c hc
      · subst hc
        exact decDigitChar_isDigit (n % 10) (Nat.mod_lt n (by omega))

theorem natDigits_head_nonZero : ∀ n : Nat, n ≠ 0 →
    ∃ c l, natDigits n = c :: l ∧ isNonZeroDigit c = true := by
  intro n
  induction n using Nat.strong_induction_on with
  | _ n ih =>
    intro hn
    rw [natDigits_eq]
    by_cases h : n < 10
    · refine ⟨decDigitChar n, [], by simp [h], ?_⟩
      rw [decDigitChar_isNonZero n h]
      simp [hn]
    · have hd : n / 10 < n := Nat.div_lt_self (by omega) (by omega)
      have hd0 : n / 10 ≠ 0 := by
        have : 10 ≤ n := by omega
        have := Nat.div_le_div_right (c := 10) this
        simp at this
        omega
      rcases ih (n / 10) hd hd0 with ⟨c, l, hl, hnz⟩
      exact ⟨c, l ++ [decDigitChar (n % 10)], by simp [h, hl], hnz⟩

theorem parseDigitsAux_append (l₁ l₂ : List Char) : ∀ acc : Nat,
    parseDigitsAux acc (l₁ ++ l₂) =
      match parseDigitsAux acc l₁ with
      | some a => parseDigitsAux a l₂
      | none => none := by
  induction l₁ with
  | nil => intro acc; rfl
  | cons c cs ih =>
    intro acc
    simp only [List.cons_append, parseDigitsAux]
    cases digitVal? c with
    | some d => exact ih (10 * acc + d)
    | none => rfl

theorem parseDigitsAux_natDigits : ∀ n acc : Nat,
    parseDigitsAux acc (natDigits n) =
      some (acc * 10 ^ (natDigits n).length + n) := by
  intro n
  induction n using Nat.strong_induction_on with
  | _ n ih =>
    intro acc
    rw [natDigits_eq]
    by_cases h : n < 10
    · simp only [h, if_true, parseDigitsAux, digitVal_decDigitChar n h,
        List.length_cons, List.length_nil]
      congr 1
      omega
    · have hd : n / 10 < n := Nat.div_lt_self (by omega) (by omega)
      simp only [h, if_false]
      rw [parseDigitsAux_append]
      rw [ih (n / 10) hd acc]
      simp only [parseDigitsAux, digitVal_decDigitChar (n % 10) (Nat.mod_lt n (by omega))]
      simp only [List.length_append, List.length_cons, List.length_nil]
      congr 1
      rw [Nat.pow_succ, ← Nat.mul_assoc]
      omega

theorem parseDigits_natDigits (n : Nat) :
    parseDigits (natDigits n) = some n := by
  unfold parseDigits
  rw [parseDigitsAux_natDigits n 0]
  simp

theorem natDigits_eq_zero_iff (n : Nat) : natDigits n = ['0'] ↔ n = 0 := by
  constructor
  · intro h
    by_contra hn
    rcases natDigits_head_nonZero n hn with ⟨c, l, hl, hnz⟩
    rw [h] at hl
    have hc : c = '0' := by
      cases hl
      rfl
    subst hc
    simp [isNonZeroDigit] at hnz
  · intro h
    subst h
    rfl

/-! ## Helper lemmas: character classes, trimming and padding -/

theorem char_beq_false_of_digit (c x : Char) (h : isDigitChar c = true)
    (hx : isDigitChar x = false) : (c == x) = false := by
  cases hcx : c == x
  · rfl
  · have hc : c = x := eq_of_beq hcx
    subst hc
    rw [h] at hx
    cases hx

theorem isDigitChar_not_ws (c : Char) (h : isDigitChar c = true) :
    isJsWhitespace c = false := by
  unfold isJsWhitespace
  rw [char_beq_false_of_digit c ' ' h (by decide),
    char_beq_false_of_digit c '\t' h (by decide),
    char_beq_false_of_digit c '\n' h (by decide),
    char_beq_false_of_digit c '\r' h (by decide)]
  rfl

theorem isDigitChar_ne_dot (c : Char) (h : isDigitChar c = true) :
    c ≠ '.' := by
  intro hc
  subst hc
  exact absurd h (by decide)

theorem isNonZeroDigit_beq_zero (c : Char) (h : isNonZeroDigit c = true) :
    (c == '0') = false := by
  cases hc : c == '0'
  · rfl
  · have hc0 : c = '0' := eq_of_beq hc
    subst hc0
    exact absurd h (by decide)

theorem dropWhile_eq_self_of_all (p : Char → Bool) (l : List Char)
    (h : ∀ c ∈ l, p c = false) : l.dropWhile p = l := by
  cases l with
  | nil => rfl
  | cons c t => simp [List.dropWhile, h c (List.mem_cons_self c t)]

theorem jsTrim_of_all (l : List Char)
    (h : ∀ c ∈ l, isJsWhitespace c = false) : jsTrim l = l := by
  unfold jsTrim
  rw [dropWhile_eq_self_of_all isJsWhitespace l h]
  rw [dropWhile_eq_self_of_all isJsWhitespace l.reverse
    (fun c hc => h c (List.mem_reverse.mp hc))]
  exact List.reverse_reverse l

theorem takeWhile_eq_self_of_all (p : Char → Bool) (l : List Char)
    (h : ∀ c ∈ l, p c = true) : l.takeWhile p = l := by
  induction l with
  | nil => rfl
  | cons c t ih =>
    simp [List.takeWhile, h c (List.mem_cons_self c t),
      ih (fun x hx => h x (List.mem_cons_of_mem c hx))]

theorem regexSearch_pad (k : Nat) (c : Char) (t : List Char)
    (hc : isNonZeroDigit c = true) :
    regexSearchNonZeroDigit (List.replicate k '0' ++ c :: t) = some k := by
  induction k with
  | zero => simp [regexSearchNonZeroDigit, hc]
  | succ k ih =>
    rw [List.replicate_succ, List.cons_append]
    simp [regexSearchNonZeroDigit, ih, show isNonZeroDigit '0' = false from by decide]

theorem dropTrailingZeros_prefix (l : List Char) :
    dropTrailingZeros l <+: l := by
  unfold dropTrailingZeros
  have hs : l.reverse.dropWhile (· == '0') <:+ l.reverse :=
    List.dropWhile_suffix (· == '0')
  have hp := List.reverse_prefix.mpr hs
  rwa [List.reverse_reverse] at hp

theorem dropTrailingZeros_ne_nil (c : Char) (l : List Char)
    (hc : (c == '0') = false) : dropTrailingZeros (c :: l) ≠ [] := by
  unfold dropTrailingZeros
  intro h
  have h2 : (c :: l).reverse.dropWhile (· == '0') = [] := by
    have := congrArg List.reverse h
    simpa using this
  have h3 := List.dropWhile_eq_nil_iff.mp h2 c (by simp)
  rw [hc] at h3
  cases h3

theorem prefix_head_eq (f l : List Char) (hne : f ≠ []) (hp : f <+: l) :
    f.head? = l.head? := by
  rcases hp with ⟨u, hu⟩
  cases f with
  | nil => exact absurd rfl hne
  | cons a t =>
    rw [← hu]
    rfl

/-! ## Helper lemmas: bech32 data characters and the operator guard -/

theorem bech32_lower_fixed : ∀ c ∈ bech32Charset, jsToLowerChar c = c := by
  decide

theorem bech32_beq_i : ∀ c ∈ bech32Charset, (c == 'i') = false := by
  decide

theorem map_id_of_mem (f : Char → Char) (l : List Char)
    (h : ∀ c ∈ l, f c = c) : l.map f = l := by
  induction l with
  | nil => rfl
  | cons c t ih =>
    simp [h c (List.mem_cons_self c t),
      ih (fun x hx => h x (List.mem_cons_of_mem c hx))]

theorem no_injvaloper_in_charset (l : List Char)
    (h : ∀ c ∈ l, c ∈ bech32Charset) :
    listHasSubstring l injvaloperChars = false := by
  induction l with
  | nil => rfl
  | cons c t ih =>
    rw [listHasSubstring_cons]
    have hc : (c == 'i') = false := bech32_beq_i c (h c (List.mem_cons_self c t))
    have hsw : listStartsWith (c :: t) injvaloperChars = false := by
      simp [injvaloperChars, listStartsWith, hc]
    rw [hsw, ih (fun x hx => h x (List.mem_cons_of_mem c hx))]
    rfl

theorem no_injvaloper_in_inj1 (cs : List Char)
    (h : ∀ c ∈ cs, c ∈ bech32Charset) :
    listHasSubstring ('i' :: 'n' :: 'j' :: '1' :: cs) injvaloperChars = false := by
  rw [listHasSubstring_cons]
  have h1 : listStartsWith ('i' :: 'n' :: 'j' :: '1' :: cs) injvaloperChars = false := by
    simp [injvaloperChars, listStartsWith]
  rw [h1, listHasSubstring_cons]
  have h2 : listStartsWith ('n' :: 'j' :: '1' :: cs) injvaloperChars = false := by
    simp [injvaloperChars, listStartsWith]
  rw [h2, listHasSubstring_cons]
  have h3 : listStartsWith ('j' :: '1' :: cs) injvaloperChars = false := by
    simp [injvaloperChars, listStartsWith]
  rw [h3, listHasSubstring_cons]
  have h4 : listStartsWith ('1' :: cs) injvaloperChars = false := by
    simp [injvaloperChars, listStartsWith]
  rw [h4, no_injvaloper_in_charset cs h]
  rfl

/-! ## Claim C2 — broadcast mode -/

/-- C2, counterexample: the claim says every submission selects a mode
that returns as soon as the mempool check completes (Tendermint `sync`),
but the shared broadcast options select `commit` and the legacy
create-validator path selects `async`; neither is the mempool-check
mode. -/
theorem c2_broadcast_mode_counterexample :
    returnsAtMempoolCheck broadcastOptions.mode = false ∧
    returnsAtMempoolCheck legacyCreateValidatorBroadcastMode = false := by
  constructor <;> rfl

/-- C2, amended: every submission of the current module passes the
shared broadcast options with mode `commit`, which waits for full block
inclusion at the call site; the legacy `createValidatorTransaction`
variant passes mode `async`.  No code path passes the mempool-check
(`sync`) mode. -/
theorem c2_broadcast_mode_amended :
    broadcastOptions.mode = "commit" ∧
    legacyCreateValidatorBroadcastMode = "async" ∧
    returnsAtMempoolCheck "sync" = true ∧
    returnsAtMempoolCheck broadcastOptions.mode = false := by
  refine ⟨rfl, rfl, rfl, rfl⟩

/-! ## Claim C3 — encoder registry -/

/-- C3, counterexample: the registry holds six encoders, but none of
them is registered under the type identifier of the orchestrator
message the builders emit
(`/injective.peggy.v1.MsgSetOrchestratorAddress`, singular). -/
theorem c3_encoder_registry_counterexample :
    stakingEncoders.length = 6 ∧
    (stakingEncoders.map (fun enc => enc.typeUrl)).contains
      orchestratorMsgTypeUrl = false := by
  constructor <;> rfl

/-- C3, amended: the registry holds six encoders, one for each of the
create-validator, edit-validator, delegate, undelegate and unjail
builder messages plus an orchestrator encoder — but the orchestrator
encoder is registered under the plural identifier
`/injective.peggy.v1.MsgSetOrchestratorAddresses` and reads the field
names `sender`/`orchestrator`/`ethAddress`, while the builders emit the
singular identifier `/injective.peggy.v1.MsgSetOrchestratorAddress`
with field names `validator`/`orchestrator`/`ethereum`; the built
orchestrator message therefore has no encoder registered under its type
identifier, and the registered orchestrator encoder reads different
field names than the builder sets. -/
theorem c3_encoder_registry_amended :
    stakingEncoders.length = 6 ∧
    (stakingEncoders.map (fun enc => enc.typeUrl)).contains
      createValidatorMsgTypeUrl = true ∧
    (stakingEncoders.map (fun enc => enc.typeUrl)).contains
      editValidatorMsgTypeUrl = true ∧
    (stakingEncoders.map (fun enc => enc.typeUrl)).contains
      delegateMsgTypeUrl = true ∧
    (stakingEncoders.map (fun enc => enc.typeUrl)).contains
      undelegateMsgTypeUrl = true ∧
    (stakingEncoders.map (fun enc => enc.typeUrl)).contains
      unjailMsgTypeUrl = true ∧
    (stakingEncoders.map (fun enc => enc.typeUrl)).contains
      orchestratorMsgTypeUrl = false ∧
    (stakingEncoders.filter
      (fun enc => enc.typeUrl == "/injective.peggy.v1.MsgSetOrchestratorAddresses")).map
      (fun enc => enc.fields) = [["sender", "orchestrator", "ethAddress"]] ∧
    orchestratorMsgFieldNames ≠ ["sender", "orchestrator", "ethAddress"] := by
  refine ⟨rfl, rfl, rfl, rfl, rfl, rfl, rfl, rfl, ?_⟩
  decide

/-! ## Claim C7 — gas estimation -/

/-- C7, counterexample: the claim says a successful simulation yields
`ceil(estimated * 1.5)`, but for the estimate `100001` the code returns
`"150001"` while `ceil(100001 * 1.5) = 150002`. -/
theorem c7_estimate_gas_counterexample :
    estimateGas (Except.ok (some 100001)) = "150001" ∧
    natToDecimalString ((3 * 100001 + 1) / 2) = "150002" := by
  constructor <;> rfl

/-- C7, amended: when simulation succeeds the gas limit is
`floor(estimated * 1.5)` (computed as `estimated * 150 / 100` in
arbitrary-precision integer arithmetic, which truncates), not the
ceiling; when simulation fails for any reason — including a response
without gas info — the fixed conservative fallback `"500000"` is
returned instead of propagating the error. -/
theorem c7_estimate_gas_amended (gasUsed : Nat) (e : String) :
    estimateGas (Except.ok (some gasUsed)) =
      natToDecimalString (3 * gasUsed / 2) ∧
    estimateGas (Except.error e) = "500000" ∧
    estimateGas (Except.ok none) = "500000" := by
  refine ⟨?_, rfl, rfl⟩
  show natToDecimalString (gasUsed * gasMultiplierTimes100 / 100) = _
  congr 1
  unfold gasMultiplierTimes100
  omega

/-! ## Claim C4 — percentage-to-ratio conversion -/

/-- C4, counterexample: the conversion applied to commission rates is
`(parseFloat(p) / 100).toFixed(18)`, computed in binary64 floating
point; converting `"10.5"` yields `"0.104999999999999996"` (the decimal
expansion of the binary64 value nearest to `0.105`, rounded to 18
fractional digits), not the exact ratio `"0.105000000000000000"` the
claim requires. -/
theorem c4_percent_conversion_counterexample :
    percentToDecimalRate "10.5" = "0.104999999999999996" ∧
    percentToDecimalRate "10.5" ≠ "0.105000000000000000" := by
  constructor
  · rfl
  · decide

/-- C4, amended: the percentage-to-ratio conversion is computed with
binary64 floating-point arithmetic (`parseFloat`, division by `100`,
`toFixed(18)`), not exact integer arithmetic.  It always produces an
18-fractional-digit string, but with float rounding error: `"10.5"`
yields `"0.104999999999999996"`, and `"33.333333333333333333"` yields
`"0.333333333333333370"`, which differs from the exact 18-digit ratio
`"0.333333333333333333"` already in the 16th fractional digit. -/
theorem c4_percent_conversion_amended :
    percentToDecimalRate "10.5" = "0.104999999999999996" ∧
    percentToDecimalRate "33.333333333333333333" = "0.333333333333333370" ∧
    percentToDecimalRate "33.333333333333333333" ≠ "0.333333333333333333" := by
  refine ⟨rfl, rfl, ?_⟩
  decide

/-! ## Claim C5 — base-unit conversion of delegation amounts -/

/-- C5, counterexample: the delegate/undelegate base-unit conversion is
`Math.floor(parseFloat(amount) * 1e18).toString()` in binary64.  For
the accepted positive amount `"0.99999999999999999"` the exact product
is `999999999999999990`, but `parseFloat` rounds the amount up to `1`,
so the emitted string is `"1000000000000000000"` — strictly greater
than the exact value, contradicting the claimed truncation-only
(never-round-up) behaviour. -/
theorem c5_base_unit_counterexample :
    delegateBaseAmount "0.99999999999999999" = Except.ok "1000000000000000000" ∧
    (((Rq.ofNat 99999999999999999).div
      (Rq.ofNat 100000000000000000)).mul (Rq.ofNat (10 ^ 18))).beq
      (Rq.ofNat 999999999999999990) = true ∧
    (999999999999999990 : Nat) < 1000000000000000000 := by
  refine ⟨by rfl, by rfl, by omega⟩

/-- C5, amended: the emitted base-unit amount string is
`Math.floor(parseFloat(amount) * 1e18).toString()` computed under
binary64 arithmetic — not the exact truncated product, and not bounded
by it, because binary64 rounding in `parseFloat` or in the
multiplication can push the result above the exact mathematical value
`amount × 10^18`.  In particular `"1.5"` converts to exactly
`"1500000000000000000"` and `"2.5"` to `"2500000000000000000"`; but
`"0.99999999999999999"` emits `"1000000000000000000"` although the
exact product is `999999999999999990` (the `parseFloat` step rounds
up), and the amount `1 + 2⁻⁵²` — exactly representable in binary64 —
emits `"1000000000000000300"` although the exact truncated product is
`1000000000000000222` (the multiplication step rounds up to the
binary64 value `1000000000000000256`, whose shortest round-trip
rendering is `"1000000000000000300"`). -/
theorem c5_base_unit_amended :
    delegateBaseAmount "1.5" = Except.ok "1500000000000000000" ∧
    delegateBaseAmount "2.5" = Except.ok "2500000000000000000" ∧
    delegateBaseAmount "0.99999999999999999" = Except.ok "1000000000000000000" ∧
    (((Rq.ofNat 99999999999999999).div
      (Rq.ofNat 100000000000000000)).mul (Rq.ofNat (10 ^ 18))).beq
      (Rq.ofNat 999999999999999990) = true ∧
    delegateBaseAmount
      "1.0000000000000002220446049250313080847263336181640625" =
      Except.ok "1000000000000000300" ∧
    (parseDecimalQ
      "1.0000000000000002220446049250313080847263336181640625").map
      (fun q => (q.mul (Rq.ofNat (10 ^ 18))).floorNat) =
      some 1000000000000000222 ∧
    (jsParseFloat
      "1.0000000000000002220446049250313080847263336181640625").map
      (fun q => (jsMul q (Rq.ofNat (10 ^ 18))).floorNat) =
      some 1000000000000000256 ∧
    (1000000000000000222 : Nat) < 1000000000000000256 := by
  refine ⟨by rfl, by rfl, by rfl, by rfl, by rfl, by rfl, by rfl, by omega⟩

/-! ## Claim C6 — no-op edit-validator commission omission -/

/-- C6, counterexample: with current on-chain rate
`"0.100000000000000000"` and new form input `"10"` (percent) — a
normalized no-op — the built `MsgEditValidator` does **not** omit the
commission field: the form's default display value is `"10.00"`, so the
input `"10"` makes the field dirty, and the message carries
`commissionRate "0.100000000000000006"` (the binary64 conversion of
10 %). -/
theorem c6_noop_edit_counterexample :
    editValidatorMessageCommission "0.100000000000000000" "10" =
      Except.ok (some "0.100000000000000006") ∧
    editValidatorMessageCommission "0.100000000000000000" "10" ≠
      Except.ok none := by
  constructor
  · rfl
  · intro h
    have h2 := (show editValidatorMessageCommission "0.100000000000000000" "10" =
      Except.ok (some "0.100000000000000006") from rfl).symm.trans h
    simp at h2

/-- C6, amended: the built `MsgEditValidator` omits the
`commissionRate` field exactly when the form's commission input equals
the form's default display string (the current on-chain rate rendered
as a two-decimal percentage) — i.e. when react-hook-form considers the
field not dirty — and never by comparing the normalized new rate with
the normalized current rate.  In particular, for current rate
`"0.100000000000000000"` the default display is `"10.00"`; the input
`"10"` therefore produces a message carrying
`commissionRate "0.100000000000000006"`, while only the untouched input
`"10.00"` omits the field. -/
theorem c6_noop_edit_amended (currentRate input : String) :
    (editValidatorMessageCommission currentRate input = Except.ok none ↔
      input = commissionDefaultDisplay currentRate) ∧
    editValidatorMessageCommission "0.100000000000000000" "10" =
      Except.ok (some "0.100000000000000006") ∧
    editValidatorMessageCommission "0.100000000000000000" "10.00" =
      Except.ok none := by
  refine ⟨?_, by rfl, by rfl⟩
  by_cases h : input = commissionDefaultDisplay currentRate
  · subst h
    simp [editValidatorMessageCommission, handleFormSubmitCommission,
      editValidatorCommissionRate]
  · constructor
    · intro hc
      exfalso
      cases hj : jsParseFloat input with
      | none =>
        simp [editValidatorMessageCommission, handleFormSubmitCommission,
          editValidatorCommissionRate, h, hj] at hc
      | some p =>
        by_cases hrange : (p.lt (Rq.ofNat 0) || (Rq.ofNat 100).lt p) = true
        · simp [editValidatorMessageCommission, handleFormSubmitCommission,
            editValidatorCommissionRate, h, hj, hrange] at hc
        · simp [editValidatorMessageCommission, handleFormSubmitCommission,
            editValidatorCommissionRate, h, hj, hrange] at hc
    · intro hc
      exact absurd hc h

/-! ## Helper lemmas: the delegate error classifier -/

theorem extractRpcErrorDetails_plain (msg : String) :
    extractRpcErrorDetails (plainError msg) msg msg =
      ⟨msg, none, regexFindTxHash msg.data⟩ := by
  unfold extractRpcErrorDetails plainError
  cases hfind : regexFindTxHash msg.data <;> simp [hfind, Option.orElse]

theorem buildRpcErrorMessage_plain_includes (msg : String) :
    jsIncludes (buildRpcErrorMessage (plainError msg) msg) msg = true := by
  unfold buildRpcErrorMessage
  rw [extractRpcErrorDetails_plain]
  cases hfind : regexFindTxHash msg.data with
  | some h =>
    simp only
    exact jsIncludes_suffix _ msg
  | none =>
    simp only
    apply jsIncludes_append_right
    apply jsIncludes_append_right
    apply jsIncludes_append_right
    apply jsIncludes_append_right
    exact jsIncludes_suffix _ msg

theorem delegateErrorRemap_includes (log : String)
    (hpat : delegatePreRpcPattern log = false) :
    jsIncludes (delegateErrorRemap log) log = true := by
  unfold delegatePreRpcPattern at hpat
  simp only [Bool.or_eq_false_iff] at hpat
  obtain ⟨⟨⟨hA, hB⟩, hC⟩, hD⟩ := hpat
  unfold delegateErrorRemap
  rw [hA, hB, hC, hD]
  simp only [Bool.or_self]
  have hfalse : ¬ ((false : Bool) = true) := by simp
  rw [if_neg hfalse, if_neg hfalse, if_neg hfalse]
  by_cases hrpc : isRpcErrorMessage log = true
  · rw [if_pos hrpc]
    exact buildRpcErrorMessage_plain_includes log
  · rw [if_neg hrpc]
    exact jsIncludes_refl log

/-! ## Claim C1 — finality precedence in the reconciler -/

/-- C1, counterexample: the claim says the function always raises an
error carrying the finalized raw log, but when the finalized log
matches one of the error classifier's earlier patterns the classifier
replaces it.  With broadcast-stage code 0 and finalized code 5 carrying
raw log `"insufficient funds: balance too low"`, the raised error
message is the fixed insufficient-balance text, which does not contain
the raw log.  (The outcome is still an error, never success.) -/
theorem c1_finality_counterexample :
    delegateOutcome (some ⟨0, "", ""⟩)
      (Except.ok ⟨5, "insufficient funds: balance too low"⟩) =
      Except.error ("Insufficient balance. Please ensure you have enough INJ " ++
        "for delegation and transaction fees.") ∧
    jsIncludes ("Insufficient balance. Please ensure you have enough INJ " ++
        "for delegation and transaction fees.")
      "insufficient funds: balance too low" = false := by
  constructor
  · rfl
  · decide

/-- C1, amended: whenever the finalized poll result carries a nonzero
response code, `delegateTransaction` raises an error and never returns
a success value, even when the earlier broadcast-stage result had code
0; the raised error carries the finalized raw log whenever that log
does not match one of the classifier's earlier substring patterns
(user rejection, insufficient funds, validator not found) — in
particular for the log `"out of gas"` — while a matching log is
replaced by the classifier's fixed message for that category. -/
theorem c1_finality_precedence_amended (b : Option TxResult)
    (w : Except String TxResponse) (r : TxResponse)
    (hw : w = Except.ok r) (hc : r.code ≠ 0) :
    (∃ m, delegateOutcome b w = Except.error m) ∧
    ((∀ t, b = some t → t.code = 0) → delegatePreRpcPattern r.rawLog = false →
      delegateOutcome b w = Except.error (delegateErrorRemap (finalizedFailureLog r)) ∧
      jsIncludes (delegateErrorRemap (finalizedFailureLog r)) r.rawLog = true) := by
  subst hw
  have hwait : delegateReconcileWait b (Except.ok r) =
      Except.error (finalizedFailureLog r) := by
    unfold delegateReconcileWait
    simp [hc]
  have hincl : delegatePreRpcPattern r.rawLog = false →
      jsIncludes (delegateErrorRemap (finalizedFailureLog r)) r.rawLog = true := by
    intro hpat
    by_cases hlog : r.rawLog = ""
    · rw [hlog]
      exact jsIncludes_empty_sub _
    · have hL : finalizedFailureLog r = r.rawLog := by
        unfold finalizedFailureLog jsOrElse
        rw [if_neg hlog]
      rw [hL]
      exact delegateErrorRemap_includes r.rawLog hpat
  cases b with
  | none =>
    have hrec : delegateReconcile none (Except.ok r) =
        Except.error (finalizedFailureLog r) := by
      unfold delegateReconcile
      exact hwait
    constructor
    · exact ⟨delegateErrorRemap (finalizedFailureLog r), by
        unfold delegateOutcome
        rw [hrec]⟩
    · intro _ hpat
      constructor
      · unfold delegateOutcome
        rw [hrec]
      · exact hincl hpat
  | some t =>
    by_cases ht : t.code = 0
    · have hrec : delegateReconcile (some t) (Except.ok r) =
          Except.error (finalizedFailureLog r) := by
        show (if t.code ≠ 0 then Except.error (broadcastFailureLog t)
          else delegateReconcileWait (some t) (Except.ok r)) =
          Except.error (finalizedFailureLog r)
        rw [if_neg (by simp [ht])]
        exact hwait
      constructor
      · exact ⟨delegateErrorRemap (finalizedFailureLog r), by
          unfold delegateOutcome
          rw [hrec]⟩
      · intro _ hpat
        constructor
        · unfold delegateOutcome
          rw [hrec]
        · exact hincl hpat
    · have hrec : delegateReconcile (some t) (Except.ok r) =
          Except.error (broadcastFailureLog t) := by
        show (if t.code ≠ 0 then Except.error (broadcastFailureLog t)
          else delegateReconcileWait (some t) (Except.ok r)) =
          Except.error (broadcastFailureLog t)
        rw [if_pos (show t.code ≠ 0 from ht)]
      constructor
      · exact ⟨delegateErrorRemap (broadcastFailureLog t), by
          unfold delegateOutcome
          rw [hrec]⟩
      · intro hall _
        exact absurd (hall t rfl) ht

/-- C1, witness: the claim's own scenario — broadcast-stage code 0,
finalized code 5 with log `"out of gas"` — instantiates the amended
theorem; the outcome is an error carrying `"out of gas"`. -/
theorem c1_finality_precedence_witness :
    ((Except.ok (TxResponse.mk 5 "out of gas") : Except String TxResponse) =
        Except.ok (TxResponse.mk 5 "out of gas") ∧ (5 : Int) ≠ 0) ∧
    ((∃ m, delegateOutcome (some (TxResult.mk 0 "" ""))
        (Except.ok (TxResponse.mk 5 "out of gas")) = Except.error m) ∧
      ((∀ t, some (TxResult.mk 0 "" "") = some t → t.code = 0) →
        delegatePreRpcPattern (TxResponse.mk 5 "out of gas").rawLog = false →
        delegateOutcome (some (TxResult.mk 0 "" ""))
            (Except.ok (TxResponse.mk 5 "out of gas")) =
          Except.error (delegateErrorRemap
            (finalizedFailureLog (TxResponse.mk 5 "out of gas"))) ∧
        jsIncludes (delegateErrorRemap
            (finalizedFailureLog (TxResponse.mk 5 "out of gas")))
          (TxResponse.mk 5 "out of gas").rawLog = true)) :=
  ⟨⟨rfl, by decide⟩,
    c1_finality_precedence_amended (some (TxResult.mk 0 "" ""))
      (Except.ok (TxResponse.mk 5 "out of gas")) (TxResponse.mk 5 "out of gas")
      rfl (by decide)⟩

/-! ## Claim C9 — transport-ambiguity error messages -/

/-- C9: for every caught error whose message contains a
transport-ambiguity marker (`"RPC Error"` or `"Internal error"`) and
that matches none of the earlier classifications (user rejection,
insufficient funds, already-set, unauthorized), the orchestrator error
classifier produces a message that warns the transaction may already
have been signed and broadcast (it contains `"signed and broadcast"` or
`"may have been signed"`), and whenever a transaction hash is
recoverable from the error object — a `0x`-prefixed 64-hex-digit
substring of the message, or a `txHash`/`transactionHash`/`data.txHash`
field — the produced message contains that hash. -/
theorem c9_rpc_ambiguity_warning (e : RpcErrorInfo)
    (h1 : isRpcErrorMessage e.message = true)
    (h2 : jsIncludes e.message "Request rejected" = false)
    (h3 : jsIncludes e.message "User rejected" = false)
    (h4 : jsIncludes e.message "insufficient funds" = false)
    (h5 : jsIncludes e.message "orchestrator address already set" = false)
    (h6 : jsIncludes e.message "unauthorized" = false) :
    (jsIncludes (registerOrchestratorErrorRemap e) "signed and broadcast" = true ∨
      jsIncludes (registerOrchestratorErrorRemap e) "may have been signed" = true) ∧
    ∀ hash, recoverableTxHash e = some hash →
      jsIncludes (registerOrchestratorErrorRemap e) hash = true := by
  have hremap : registerOrchestratorErrorRemap e =
      buildRpcErrorMessage e e.message := by
    simp only [registerOrchestratorErrorRemap]
    rw [h2, h3, h4, h5, h6]
    simp only [Bool.or_self]
    have hfalse : ¬ ((false : Bool) = true) := by simp
    rw [if_neg hfalse, if_neg hfalse, if_neg hfalse, if_neg hfalse, if_pos h1]
  rw [hremap]
  have htx : (extractRpcErrorDetails e e.message e.message).txHash =
      recoverableTxHash e := rfl
  simp only [buildRpcErrorMessage]
  rw [htx]
  cases hfind : recoverableTxHash e with
  | some hash =>
    constructor
    · left
      apply jsIncludes_append_right
      apply jsIncludes_append_right
      apply jsIncludes_append_right
      apply jsIncludes_append_right
      apply jsIncludes_append_right
      apply jsIncludes_append_right
      decide
    · intro hash2 hEq
      injection hEq with hEq2
      subst hEq2
      apply jsIncludes_append_right
      apply jsIncludes_append_right
      apply jsIncludes_append_right
      apply jsIncludes_append_right
      exact jsIncludes_suffix _ hash
  | none =>
    constructor
    · right
      apply jsIncludes_append_right
      apply jsIncludes_append_right
      apply jsIncludes_append_right
      apply jsIncludes_append_right
      apply jsIncludes_append_right
      apply jsIncludes_append_right
      apply jsIncludes_append_right
      decide
    · intro hash2 hEq
      cases hEq

/-- C9, witness: a plain error object with message
`"RPC Error: boom"` satisfies all hypotheses; the classifier produces
the may-have-been-signed warning. -/
theorem c9_rpc_ambiguity_warning_witness :
    (isRpcErrorMessage (plainError "RPC Error: boom").message = true ∧
      jsIncludes (plainError "RPC Error: boom").message "Request rejected" = false ∧
      jsIncludes (plainError "RPC Error: boom").message "User rejected" = false ∧
      jsIncludes (plainError "RPC Error: boom").message "insufficient funds" = false ∧
      jsIncludes (plainError "RPC Error: boom").message
        "orchestrator address already set" = false ∧
      jsIncludes (plainError "RPC Error: boom").message "unauthorized" = false) ∧
    ((jsIncludes (registerOrchestratorErrorRemap (plainError "RPC Error: boom"))
        "signed and broadcast" = true ∨
      jsIncludes (registerOrchestratorErrorRemap (plainError "RPC Error: boom"))
        "may have been signed" = true) ∧
      ∀ hash, recoverableTxHash (plainError "RPC Error: boom") = some hash →
        jsIncludes (registerOrchestratorErrorRemap (plainError "RPC Error: boom"))
          hash = true) :=
  ⟨⟨by decide, by decide, by decide, by decide, by decide, by decide⟩,
    c9_rpc_ambiguity_warning (plainError "RPC Error: boom")
      (by decide) (by decide) (by decide) (by decide) (by decide) (by decide)⟩

/-! ## Claim C10 — the orchestrator operator guard always throws -/

/-- C10: for every account address of the form `inj1` followed by
bech32 data characters (a charset containing no `'i'`, `'o'`, `'b'` or
`'1'`) and every validator operator address beginning with
`injvaloper`, `createOrchestratorMessage` throws its operator-mismatch
error and never returns a message-and-fee pair: the lowercased account
address can never contain the first ten characters `"injvaloper"` of
the validator address, because the only `'i'` in the account address is
at position 0, where the fourth character `'1'` mismatches the
pattern's `'v'`. -/
theorem c10_orchestrator_guard_unsatisfiable (address validatorAddress
    orchestratorAddress ethereumAddress : String) (cs ts : List Char)
    (haddr : address.data = 'i' :: 'n' :: 'j' :: '1' :: cs)
    (hcs : ∀ c ∈ cs, c ∈ bech32Charset)
    (hval : validatorAddress.data = injvaloperChars ++ ts) :
    createOrchestratorMessage address validatorAddress orchestratorAddress
      ethereumAddress =
      Except.error "The connected wallet must be the validator operator address" := by
  have hlow : (jsToLower address).data = 'i' :: 'n' :: 'j' :: '1' :: cs := by
    show address.data.map jsToLowerChar = _
    rw [haddr]
    simp only [List.map_cons]
    rw [show jsToLowerChar 'i' = 'i' from rfl, show jsToLowerChar 'n' = 'n' from rfl,
      show jsToLowerChar 'j' = 'j' from rfl, show jsToLowerChar '1' = '1' from rfl]
    rw [map_id_of_mem jsToLowerChar cs (fun c hc => bech32_lower_fixed c (hcs c hc))]
  have hsub : (jsSubstringTo (jsToLower validatorAddress) 10).data =
      injvaloperChars := by
    show (validatorAddress.data.map jsToLowerChar).take 10 = _
    rw [hval, List.map_append]
    rw [show injvaloperChars.map jsToLowerChar = injvaloperChars from rfl]
    rw [show (10 : Nat) = injvaloperChars.length from rfl]
    exact List.take_left injvaloperChars (ts.map jsToLowerChar)
  have hinc : jsIncludes (jsToLower address)
      (jsSubstringTo (jsToLower validatorAddress) 10) = false := by
    unfold jsIncludes
    rw [hlow, hsub]
    exact no_injvaloper_in_inj1 cs hcs
  unfold createOrchestratorMessage
  rw [hinc]
  rfl

/-- C10, witness: the guard throws for the concrete account address
`inj1qqqq` and validator address `injvaloper1xyz`. -/
theorem c10_orchestrator_guard_witness :
    (("inj1qqqq" : String).data = 'i' :: 'n' :: 'j' :: '1' :: ['q', 'q', 'q', 'q'] ∧
      (∀ c ∈ (['q', 'q', 'q', 'q'] : List Char), c ∈ bech32Charset) ∧
      ("injvaloper1xyz" : String).data = injvaloperChars ++ ['1', 'x', 'y', 'z']) ∧
    createOrchestratorMessage "inj1qqqq" "injvaloper1xyz" "inj1orch" "0xabc" =
      Except.error "The connected wallet must be the validator operator address" :=
  ⟨⟨by decide, by decide, by decide⟩,
    c10_orchestrator_guard_unsatisfiable "inj1qqqq" "injvaloper1xyz" "inj1orch"
      "0xabc" ['q', 'q', 'q', 'q'] ['1', 'x', 'y', 'z']
      (by decide) (by decide) (by decide)⟩

/-! ## Claim C8 — formatTokenAmount displays the first significant
fractional digits -/

/-- C8: `formatTokenAmount(toBaseUnits("1.5"), 18, 4) = "1.5"` (with
`toBaseUnits` the delegate builder conversion), an amount of exactly
`"0"` renders as `"0"` with no fractional part, and for every base-unit
integer string whose fractional part at scale 18 is nonzero and every
`displayDecimals ≥ 1`, the rendered string is the integer part followed
by a nonempty fractional display of at most `displayDecimals` digits
taken from the padded fractional expansion starting at its first
non-zero digit — so a nonzero fractional remainder is never rendered as
zero. -/
theorem c8_format_token_amount (a displayDecimals : Nat)
    (hdd : 1 ≤ displayDecimals) (hfrac : a % 10 ^ 18 ≠ 0) :
    (delegateBaseAmount "1.5" = Except.ok "1500000000000000000" ∧
      formatTokenAmount "1500000000000000000" 18 4 = some "1.5" ∧
      formatTokenAmount "0" 18 4 = some "0") ∧
    ∃ i f,
      regexSearchNonZeroDigit (padStartZeros 18 (natDigits (a % 10 ^ 18))) = some i ∧
      formatTokenAmount (natToDecimalString a) 18 displayDecimals =
        some (natToDecimalString (a / 10 ^ 18) ++ "." ++ String.mk f) ∧
      f ≠ [] ∧ f.length ≤ displayDecimals ∧
      f <+: (padStartZeros 18 (natDigits (a % 10 ^ 18))).drop i ∧
      ∀ c, f.head? = some c → isNonZeroDigit c = true := by
  refine ⟨⟨by rfl, by rfl, by rfl⟩, ?_⟩

  have ha : a ≠ 0 := by
    intro h
    subst h
    simp at hfrac
  -- digits of the fractional part
  obtain ⟨c0, l0, hd0, hnz0⟩ := natDigits_head_nonZero (a % 10 ^ 18) hfrac
  have hFlt : a % 10 ^ 18 < 10 ^ 18 := Nat.mod_lt a (by norm_num)
  have hL18 : (natDigits (a % 10 ^ 18)).length ≤ 18 :=
    natDigits_length_le 18 (a % 10 ^ 18) (by norm_num) hFlt
  have hL1 : 1 ≤ (natDigits (a % 10 ^ 18)).length := natDigits_length_pos _
  set L := (natDigits (a % 10 ^ 18)).length with hLdef
  -- the padded fractional string and the search result
  have hpad : padStartZeros 18 (natDigits (a % 10 ^ 18)) =
      List.replicate (18 - L) '0' ++ c0 :: l0 := by
    unfold padStartZeros
    rw [← hLdef, hd0]
  have hsearch : regexSearchNonZeroDigit
      (padStartZeros 18 (natDigits (a % 10 ^ 18))) = some (18 - L) := by
    rw [hpad]
    exact regexSearch_pad (18 - L) c0 l0 hnz0
  have hdropgen : ∀ (k : Nat) (l : List Char),
      (List.replicate k '0' ++ l).drop k = l := by
    intro k
    induction k with
    | zero => intro l; rfl
    | succ k ih =>
      intro l
      rw [List.replicate_succ, List.cons_append, List.drop_succ_cons]
      exact ih l
  have hdrop : (padStartZeros 18 (natDigits (a % 10 ^ 18))).drop (18 - L) =
      c0 :: l0 := by
    rw [hpad]
    exact hdropgen (18 - L) (c0 :: l0)
  -- string-shape facts about the input
  have hne : natToDecimalString a ≠ "" := by
    intro h
    have h2 : natDigits a = [] := by
      have := congrArg String.data h
      simpa using this
    exact natDigits_ne_nil a h2
  have hne0 : natToDecimalString a ≠ "0" := by
    intro h
    have h2 : natDigits a = ['0'] := by
      have := congrArg String.data h
      simpa using this
    exact ha (natDigits_eq_zero_iff a |>.mp h2)
  have hcond : (decide (natToDecimalString a = "") ||
      decide (natToDecimalString a = "0")) = false := by
    rw [decide_eq_false hne, decide_eq_false hne0]
    rfl
  have halldig : ∀ c ∈ natDigits a, isDigitChar c = true := natDigits_all_digits a
  have htrim : jsTrim (natDigits a) = natDigits a :=
    jsTrim_of_all _ (fun c hc => isDigitChar_not_ws c (halldig c hc))
  have htake : (natDigits a).takeWhile (fun c => decide (c ≠ '.')) = natDigits a :=
    takeWhile_eq_self_of_all _ _
      (fun c hc => decide_eq_true (isDigitChar_ne_dot c (halldig c hc)))
  have hparse : parseDigits (natDigits a) = some a := parseDigits_natDigits a
  -- the sliced fractional display
  have hmin1 : 1 ≤ min displayDecimals L := le_min hdd hL1
  obtain ⟨m, hm⟩ : ∃ m, min displayDecimals L = m + 1 :=
    ⟨min displayDecimals L - 1, by omega⟩
  have harith : min (18 - L + displayDecimals) 18 - (18 - L) =
      min displayDecimals L := by omega
  set disp := (c0 :: l0).take (m + 1) with hdisp
  have hdispc : disp = c0 :: l0.take m := by rw [hdisp]; rfl
  have hbeq0 : (c0 == '0') = false := isNonZeroDigit_beq_zero c0 hnz0
  have hrepne : dropTrailingZeros disp ≠ [] := by
    rw [hdispc]
    exact dropTrailingZeros_ne_nil c0 _ hbeq0
  have hrepemp : (dropTrailingZeros disp).isEmpty = false := by
    cases hrep : dropTrailingZeros disp with
    | nil => exact absurd hrep hrepne
    | cons x xs => rfl
  have hpre : dropTrailingZeros disp <+: disp := dropTrailingZeros_prefix disp
  have hpre2 : disp <+: c0 :: l0 := by
    rw [hdisp]
    exact List.take_prefix (m + 1) (c0 :: l0)
  refine ⟨18 - L, dropTrailingZeros disp, hsearch, ?_, hrepne, ?_, ?_, ?_⟩
  · -- the main evaluation
    simp only [formatTokenAmount]
    rw [hcond]
    have hfneq : ¬ ((false : Bool) = true) := by simp
    rw [if_neg hfneq]
    rw [show (natToDecimalString a).data = natDigits a from rfl]
    rw [htrim, htake]
    simp only [hparse]
    rw [if_neg hfrac]
    simp only [hsearch]
    rw [harith, hm]
    rw [hdrop]
    rw [← hdisp]
    simp only [hrepemp, Bool.false_eq_true, if_false]
    rw [if_neg hrepne]
  · -- length bound
    have h1 := hpre.length_le
    have hLc : (c0 :: l0).length = L := by rw [hLdef, hd0]
    have h2 : disp.length = m + 1 := by
      rw [hdisp, List.length_take, hLc]
      omega
    omega
  · -- prefix of the dropped fractional string
    rw [hdrop]
    exact hpre.trans hpre2
  · -- first displayed digit is the first non-zero digit
    intro c hc
    have hh := prefix_head_eq _ _ hrepne hpre
    rw [hc, hdispc] at hh
    simp only [List.head?_cons] at hh
    injection hh with hc2
    subst hc2
    exact hnz0

/-- C8, witness: the universal part instantiated at the base-unit
string for `"1.5"` with four display decimals. -/
theorem c8_format_token_amount_witness :
    ((1 : Nat) ≤ 4 ∧ (1500000000000000000 : Nat) % 10 ^ 18 ≠ 0) ∧
    ((delegateBaseAmount "1.5" = Except.ok "1500000000000000000" ∧
      formatTokenAmount "1500000000000000000" 18 4 = some "1.5" ∧
      formatTokenAmount "0" 18 4 = some "0") ∧
    ∃ i f,
      regexSearchNonZeroDigit
        (padStartZeros 18 (natDigits (1500000000000000000 % 10 ^ 18))) = some i ∧
      formatTokenAmount (natToDecimalString 1500000000000000000) 18 4 =
        some (natToDecimalString (1500000000000000000 / 10 ^ 18) ++ "." ++
          String.mk f) ∧
      f ≠ [] ∧ f.length ≤ 4 ∧
      f <+: (padStartZeros 18 (natDigits (1500000000000000000 % 10 ^ 18))).drop i ∧
      ∀ c, f.head? = some c → isNonZeroDigit c = true) :=
  ⟨⟨by decide, by decide⟩,
    c8_format_token_amount 1500000000000000000 4 (by decide) (by decide)⟩

end WhitelabelValidator
